import Mathlib

/-
Verification of the steam_scraper discovery/tracking/ranking pipeline.

The definitions below are a shallow embedding of the Python sources:
  * steam_daily.py               (catalog diff, detail classifier `build_row`,
                                  watchlist tracker, name normalization, main run)
  * backfill_merge.py            (retrying fetch clients)
  * backend/core/management/commands/compute_wishlist_momentum.py
                                  (momentum ranking engine)

Conventions of the embedding:
  * Python dicts returned by the fetchers are modelled by the inductive
    `FetchOutcome`; the untagged empty dict `{}` is the `emptyPayload`
    constructor, and the tagged failure dicts carry their `_app_id`.
  * Python `None`-able fields become `Option`; dict truthiness of a string
    is `s ≠ ""`, of an optional number `o ≠ none` (and nonzero for ints).
  * Dates are day numbers (`Int`) for the momentum engine and opaque
    strings for the watchlist tracker, matching how the source uses them.
  * The third-party `dateutil` parser is an oracle parameter
    `parse : String → Option Int` (`none` models a parse exception).
  * Exact rational arithmetic (`ℚ`) stands for Python floats; the
    source's `round(percentile, 2)` display rounding is elided.
-/

namespace SteamScraper

/-! ## Shared data model -/

/-- The `release_date` sub-object of a Steam appdetails payload. -/
structure ReleaseInfo where
  comingSoon : Option Bool
  date : Option String
deriving DecidableEq

/-- Fields of a detail payload that the classifier consults.  The `appid`
key is only present on records produced by `get_game_details` (the "new
data structure"); payloads returned by the appdetails API never carry it. -/
structure Payload where
  appid : Option Nat
  name : Option String
  steamAppid : Option Nat
  ptype : Option String
  releaseDate : Option ReleaseInfo
  releaseDateStr : Option String
deriving DecidableEq

/- The `release_date` key is dynamically typed in the source: the
appdetails API payload stores the `ReleaseInfo` object (`releaseDate`),
while `get_game_details` records store a preformatted string
(`releaseDateStr`); each record shape populates only its own variant. -/

/-- Return value of the detail fetchers (`fetch_app_details` and
`fetch_app_details_with_retry`): either a nonempty payload tagged
`"_api_response": "success"`, the untagged empty dict `{}` (a success
response whose `data` member was empty), or one of the tagged failure
dicts `{"_api_response": tag, "_app_id": appid}`. -/
inductive FetchOutcome where
  | success (p : Payload)
  | emptyPayload
  | failed (appId : Nat)
  | rateLimited (appId : Nat)
  | error (appId : Nat)
deriving DecidableEq

/-- The `_api_response` tag carried by a fetch result (`none` when the
dict has no such key, i.e. the empty dict). -/
def FetchOutcome.apiTag : FetchOutcome → Option String
  | .success _ => some "success"
  | .emptyPayload => none
  | .failed _ => some "failed"
  | .rateLimited _ => some "rate_limited"
  | .error _ => some "error"

/-- The `name` key of a fetch result dict, when present. -/
def FetchOutcome.nameField : FetchOutcome → Option String
  | .success p => p.name
  | _ => none

/-- The `type` key of a fetch result dict, when present. -/
def FetchOutcome.typeField : FetchOutcome → Option String
  | .success p => p.ptype
  | _ => none

/-- Python truthiness of an optional string (`None` and `""` are falsy). -/
def truthyStr : Option String → Bool
  | none => false
  | some s => s ≠ ""

/-- Python truthiness of an optional nonnegative integer (`None` and `0`
are falsy). -/
def truthyNat : Option Nat → Bool
  | none => false
  | some n => n ≠ 0

/-! ## Catalog differ (steam_daily.py: `load_known_appids`, `main`)

`load_known_appids` returns the set stored in `applist.json`, or the
empty set when the file does not exist (first run).  `main` computes
`new_ids = latest_ids - known_ids`. -/

/-- `load_known_appids`: the previously persisted identifier set, empty
when no previous list exists. -/
def load_known_appids (stored : Option (List Nat)) : Finset Nat :=
  match stored with
  | some ids => ids.toFinset
  | none => ∅

/-- `new_ids = latest_ids - known_ids` from `main`. -/
def newAppIds (latestIds knownIds : Finset Nat) : Finset Nat :=
  latestIds \ knownIds

/-! ## Watchlist state tracker (steam_daily.py: `update_watchlist_entry`)

The watchlist JSON object is modelled as an association list keyed by the
decimal string of the app id. -/

/-- One watchlist entry.  `checkCount` and `currentStatus` are optional
because the source reads them with `dict.get` defaults. -/
structure WatchlistEntry where
  firstDetected : String
  lastChecked : String
  statusHistory : List (String × String)
  checkCount : Option Nat
  currentStatus : Option String
  latestName : Option String
  latestType : Option String
deriving DecidableEq

/-- Dictionary lookup on an association list. -/
def lookupA {α : Type} : List (String × α) → String → Option α
  | [], _ => none
  | kv :: tl, k => if kv.1 == k then some kv.2 else lookupA tl k

/-- Dictionary assignment `d[k] = v` on an association list. -/
def insertA {α : Type} : List (String × α) → String → α → List (String × α)
  | [], k, v => [(k, v)]
  | kv :: tl, k, v => if kv.1 == k then (k, v) :: tl else kv :: insertA tl k v

/-- Dictionary deletion `del d[k]` on an association list. -/
def eraseA {α : Type} : List (String × α) → String → List (String × α)
  | [], _ => []
  | kv :: tl, k => if kv.1 == k then eraseA tl k else kv :: eraseA tl k

/-- `update_watchlist_entry(watchlist, app_id, status, details)`, with the
current date passed explicitly (the source reads the wall clock). -/
def update_watchlist_entry (watchlist : List (String × WatchlistEntry)) (appId : Nat)
    (status : String) (details : Option FetchOutcome) (currentDate : String) :
    List (String × WatchlistEntry) :=
  let key := toString appId
  let base : WatchlistEntry :=
    match lookupA watchlist key with
    | none =>
        { firstDetected := currentDate
          lastChecked := currentDate
          statusHistory := [(currentDate, status)]
          checkCount := some 1
          currentStatus := some status
          latestName := none
          latestType := none }
    | some e =>
        let e1 := { e with lastChecked := currentDate, checkCount := some (e.checkCount.getD 0 + 1) }
        if e1.currentStatus ≠ some status then
          { e1 with statusHistory := e1.statusHistory ++ [(currentDate, status)]
                    currentStatus := some status }
        else e1
  let final : WatchlistEntry :=
    match details with
    | some d =>
        if truthyStr d.nameField then
          { base with latestName := d.nameField, latestType := some (d.typeField.getD "unknown") }
        else base
    | none => base
  insertA watchlist key final

/-! ## Resilient fetch client
(steam_daily.py: `fetch_app_details`; backfill_merge.py:
`fetch_app_details_with_retry`, `fetch_wishlist_rank_with_retry`)

One upstream interaction per attempt is modelled by `Attempt`: an HTTP
response whose JSON decoded (status code, the per-appid `success` flag,
and the optional nonempty `data` member), a
`requests.exceptions.RequestException`, or any other exception (e.g. a
JSON parse failure). -/

/-- What the upstream server does on one HTTP attempt of a detail fetch. -/
inductive Attempt where
  | ok (status : Nat) (success : Bool) (data : Option Payload)
  | reqExc
  | otherExc
deriving DecidableEq

/-- `fetch_app_details(appid)` from steam_daily.py: a single attempt, no
retries; `raise_for_status` on any HTTP error (including 403 and 429)
lands in the generic `except` and is reported as the `error` dict. -/
def fetch_app_details (appid : Nat) (upstream : Attempt) : FetchOutcome :=
  match upstream with
  | .ok st success data =>
      if 400 ≤ st then .error appid
      else if success = false then .failed appid
      else
        match data with
        | some p => .success p
        | none => .emptyPayload
  | .reqExc => .error appid
  | .otherExc => .error appid

/-- Loop body of `fetch_app_details_with_retry`.  The fuel argument is the
number of remaining iterations of `for attempt in range(max_retries)`;
the fuel-0 case is the function-final `return {"_api_response": "error"}`.
The returned `Nat` counts upstream attempts actually made. -/
def fetchRetryAux (appid : Nat) (upstream : Nat → Attempt) (maxRetries : Nat) :
    Nat → Nat → FetchOutcome × Nat
  | 0, attempt => (.error appid, attempt)
  | fuel + 1, attempt =>
      match upstream attempt with
      | .ok st success data =>
          if st = 429 then
            if attempt < maxRetries - 1 then fetchRetryAux appid upstream maxRetries fuel (attempt + 1)
            else (.rateLimited appid, attempt + 1)
          else if 400 ≤ st then
            -- `resp.raise_for_status()` raises; caught as a RequestException
            if attempt < maxRetries - 1 then fetchRetryAux appid upstream maxRetries fuel (attempt + 1)
            else (.error appid, attempt + 1)
          else if success = false then (.failed appid, attempt + 1)
          else
            match data with
            | some p => (.success p, attempt + 1)
            | none => (.emptyPayload, attempt + 1)
      | .reqExc =>
          if attempt < maxRetries - 1 then fetchRetryAux appid upstream maxRetries fuel (attempt + 1)
          else (.error appid, attempt + 1)
      | .otherExc => (.error appid, attempt + 1)

/-- `fetch_app_details_with_retry(appid, session, max_retries)` from
backfill_merge.py, instrumented with the number of attempts consumed. -/
def fetch_app_details_with_retry (appid : Nat) (upstream : Nat → Attempt)
    (maxRetries : Nat) : FetchOutcome × Nat :=
  fetchRetryAux appid upstream maxRetries maxRetries 0

/-- One upstream interaction of the SteamDB wishlist-rank fetch: a
response (status code plus the rank the `WISHLIST_RE` regex would
extract from the body), or an exception whose text contains "403" or
"429", or some other exception. -/
inductive RankAttempt where
  | ok (status : Nat) (rank : Option Nat)
  | exc403
  | exc429
  | reqExc
  | otherExc
deriving DecidableEq

/-- Loop body of `fetch_wishlist_rank_with_retry`; fuel as in
`fetchRetryAux`.  A 403 status returns `None` immediately; HTTP error
statuses other than 403/429 raise and are reported as `None` without
retry (their exception text carries their own status code, not "403" or
"429"). -/
def rankRetryAux (upstream : Nat → RankAttempt) (maxRetries : Nat) :
    Nat → Nat → Option Nat × Nat
  | 0, attempt => (none, attempt)
  | fuel + 1, attempt =>
      match upstream attempt with
      | .ok st rank =>
          if st = 403 then (none, attempt + 1)
          else if st = 429 then
            if attempt < maxRetries - 1 then rankRetryAux upstream maxRetries fuel (attempt + 1)
            else (none, attempt + 1)
          else if 400 ≤ st then (none, attempt + 1)
          else (rank, attempt + 1)
      | .exc403 => (none, attempt + 1)
      | .exc429 =>
          if attempt < maxRetries - 1 then rankRetryAux upstream maxRetries fuel (attempt + 1)
          else (none, attempt + 1)
      | .reqExc => (none, attempt + 1)
      | .otherExc => (none, attempt + 1)

/-- `fetch_wishlist_rank_with_retry(appid, session, max_retries)` from
backfill_merge.py, instrumented with the number of attempts consumed. -/
def fetch_wishlist_rank_with_retry (upstream : Nat → RankAttempt)
    (maxRetries : Nat) : Option Nat × Nat :=
  rankRetryAux upstream maxRetries maxRetries 0

/-! ## Detail classifier (steam_daily.py: `build_row`)

The row keeps the fields the claims are about; presentation-only fields
(urls, descriptions, languages, developer/publisher lists) are elided.
`build_row` returning the empty dict `{}` is modelled as `none`. -/

/-- Wishlist estimation data handed to `build_row`. -/
structure WishlistData where
  followers : Option Int
  wishlistsEst : Option Int
  wishlistRank : Option Int
deriving DecidableEq

/-- One output row of the classifier. -/
structure Row where
  rtype : String
  name : String
  steamAppid : String
  detectionStage : String
  apiResponseType : String
  releaseDate : String
  followers : Option Int
  wishlistsEst : Option Int
  wishlistRank : Option Int
deriving DecidableEq

/-- The `appid` key of a fetch result dict (only the new-structure
records from `get_game_details` carry it). -/
def FetchOutcome.appidField : FetchOutcome → Option Nat
  | .success p => p.appid
  | _ => none

/-- The `steam_appid` key of a fetch result dict, when present. -/
def FetchOutcome.steamAppidField : FetchOutcome → Option Nat
  | .success p => p.steamAppid
  | _ => none

/-- The `release_date` key of a fetch result dict, when present. -/
def FetchOutcome.releaseDateField : FetchOutcome → Option ReleaseInfo
  | .success p => p.releaseDate
  | _ => none

/-- `details.get("steam_appid", app_id or "unknown")` rendered into the
"Unnamed App" placeholder name. -/
def idOrUnknown (steamAppid appId : Option Nat) : String :=
  match steamAppid with
  | some n => toString n
  | none => if truthyNat appId then toString (appId.getD 0) else "unknown"

/-- `str(details.get("steam_appid", app_id or ""))`. -/
def idOrEmpty (steamAppid appId : Option Nat) : String :=
  match steamAppid with
  | some n => toString n
  | none => if truthyNat appId then toString (appId.getD 0) else ""

/-- The early-stage row literal of `build_row` (the branch taken when
`_api_response` is `"failed"` or `"error"`). -/
def earlyStageRow (tag : String) (appIdKey : Nat) (appId : Option Nat)
    (followers wishlistsEst wishlistRank : Option Int) : Row :=
  { rtype := "unknown"
    name := "Early Stage App (ID: " ++
      (if truthyNat appId then toString (appId.getD 0) else toString appIdKey) ++ ")"
    steamAppid := if truthyNat appId then toString (appId.getD 0) else toString appIdKey
    detectionStage := "early_stage"
    apiResponseType := tag
    releaseDate := "未知"
    followers := followers
    wishlistsEst := wishlistsEst
    wishlistRank := wishlistRank }

/-- The trailing "legacy data structure" block of `build_row`: named
records are filtered when `coming_soon` is exactly `False`, nameless
records become `minimal_data` rows. -/
def legacyRow (details : FetchOutcome) (appId : Option Nat)
    (followers wishlistsEst wishlistRank : Option Int) : Option Row :=
  if truthyStr details.nameField then
    let releaseInfo := details.releaseDateField.getD ⟨none, none⟩
    if releaseInfo.comingSoon = some false then none  -- skip clearly released games
    else
      some
        { rtype := details.typeField.getD "unknown"
          name := details.nameField.getD ""
          steamAppid := idOrEmpty details.steamAppidField appId
          detectionStage :=
            if releaseInfo.comingSoon = some true then "public_unreleased" else "minimal_data"
          apiResponseType := "full_details"
          releaseDate :=
            match details.releaseDateField with
            | some ri => match ri.date with
              | some dstr => if dstr ≠ "" then dstr else "未知"
              | none => "未知"
            | none => "未知"
          followers := followers
          wishlistsEst := wishlistsEst
          wishlistRank := wishlistRank }
  else
    some
      { rtype := details.typeField.getD "unknown"
        name := "Unnamed App (ID: " ++ idOrUnknown details.steamAppidField appId ++ ")"
        steamAppid := idOrEmpty details.steamAppidField appId
        detectionStage := "minimal_data"
        apiResponseType := "full_details"
        releaseDate := "未知"
        followers := followers
        wishlistsEst := wishlistsEst
        wishlistRank := wishlistRank }

/-- `build_row(details, app_id, wishlist_data)` from steam_daily.py. -/
def build_row (details : FetchOutcome) (appId : Option Nat)
    (wishlistData : Option WishlistData) : Option Row :=
  let followers := wishlistData.bind fun w => w.followers
  let wishlistsEst := wishlistData.bind fun w => w.wishlistsEst
  let wishlistRank := wishlistData.bind fun w => w.wishlistRank
  match details with
  | .success p =>
      if truthyNat p.appid then
        -- `if details and details.get('appid')`: new structure from get_game_details
        some
          { rtype := "game"
            name := p.name.getD ""
            steamAppid := toString (p.appid.getD 0)
            detectionStage := "public_unreleased"
            apiResponseType := "full_details"
            releaseDate := p.releaseDateStr.getD "未知"
            followers := followers
            wishlistsEst := wishlistsEst
            wishlistRank := wishlistRank }
      else legacyRow details appId followers wishlistsEst wishlistRank
  | .failed appIdKey => some (earlyStageRow "failed" appIdKey appId followers wishlistsEst wishlistRank)
  | .error appIdKey => some (earlyStageRow "error" appIdKey appId followers wishlistsEst wishlistRank)
  | .rateLimited _ => legacyRow details appId followers wishlistsEst wishlistRank
  | .emptyPayload => legacyRow details appId followers wishlistsEst wishlistRank

/-! ## Momentum ranking engine
(compute_wishlist_momentum.py: `_is_unreleased`, `_primary_metric`,
`Command._compute_window`) -/

/-- One persisted `GameSnapshot` row, dates as day numbers. -/
structure GameSnapshot where
  gameId : Nat
  ingestedForDate : Int
  followers : Option Int
  wishlistsEst : Option Int
  detectionStage : Option String
  releaseDateRaw : Option String
deriving DecidableEq

/-- Python `needle in hay` on strings. -/
def substrB (needle hay : List Char) : Bool :=
  hay.tails.any fun t => needle.isPrefixOf t

/-- `tok in s` for strings. -/
def containsToken (s tok : String) : Bool :=
  substrB tok.data s.data

/-- `s.lower()` (basic-latin case mapping). -/
def lowerStr (s : String) : String :=
  ⟨s.data.map Char.toLower⟩

/-- `any(token in lowered for token in ("tba", "coming soon", "comingsoon", "soon"))`. -/
def hasPlaceholderToken (lowered : String) : Bool :=
  containsToken lowered "tba" || containsToken lowered "coming soon" ||
  containsToken lowered "comingsoon" || containsToken lowered "soon"

/-- `_is_unreleased(snapshot, calc_date)`.  The `dateutil` parser is the
oracle `parse`; `none` models a `ValueError`/`TypeError`/`OverflowError`. -/
def is_unreleased (parse : String → Option Int) (snapshot : GameSnapshot)
    (calcDate : Int) : Bool :=
  if truthyStr snapshot.detectionStage &&
      ! containsToken (lowerStr (snapshot.detectionStage.getD "")) "released" then
    true
  else
    let releaseRaw := (snapshot.releaseDateRaw.getD "").trim
    if releaseRaw = "" then true
    else if hasPlaceholderToken (lowerStr releaseRaw) then true
    else
      match parse releaseRaw with
      | none => true
      | some parsedDate => calcDate < parsedDate

/-- `_primary_metric(snapshot)`: `(metric, followers, wishlists)`. -/
def primary_metric (snapshot : GameSnapshot) : Option Int × Option Int × Option Int :=
  let followers := snapshot.followers
  let wishlists := snapshot.wishlistsEst
  match followers with
  | some f => (some f, followers, wishlists)
  | none =>
      match wishlists with
      | some w => (some w, followers, wishlists)
      | none => (none, followers, wishlists)

/-- One `WishlistMomentum` entry before ranking (the metadata bag is kept
as plain fields). -/
structure MomentumEntry where
  gameId : Nat
  baselineValue : Int
  latestFollowers : Option Int
  latestWishlistsEst : Option Int
  deltaFollowers : Int
  deltaPerDay : ℚ
  deltaRate : Option ℚ
  baselineDate : Int
  latestDate : Int
  daysCovered : Int
deriving DecidableEq

/-- The per-game body of `Command._compute_window`: `data` is one game's
in-window snapshot group, ordered by `ingested_for_date` (so `data[0]` is
the earliest and `data[-1]` the latest snapshot); `none` means the game
is skipped. -/
def computeEntry (parse : String → Option Int) (calcDate minBaseline : Int)
    (data : List GameSnapshot) : Option MomentumEntry :=
  match data.head?, data.getLast? with
  | some firstSnapshot, some lastSnapshot =>
      let metricStartO := (primary_metric firstSnapshot).1
      let metricEndO := (primary_metric lastSnapshot).1
      match metricStartO, metricEndO with
      | some metricStart, some metricEnd =>
          if metricStart < minBaseline then none
          else if ! is_unreleased parse lastSnapshot calcDate then none
          else
            let days := max 1 (lastSnapshot.ingestedForDate - firstSnapshot.ingestedForDate)
            let delta := metricEnd - metricStart
            if delta ≤ 0 then none
            else
              some
                { gameId := firstSnapshot.gameId
                  baselineValue := metricStart
                  latestFollowers := lastSnapshot.followers
                  latestWishlistsEst := lastSnapshot.wishlistsEst
                  deltaFollowers := delta
                  deltaPerDay := (delta : ℚ) / (days : ℚ)
                  deltaRate := if metricStart ≠ 0 then some ((delta : ℚ) / (metricStart : ℚ)) else none
                  baselineDate := firstSnapshot.ingestedForDate
                  latestDate := lastSnapshot.ingestedForDate
                  daysCovered := days }
      | _, _ => none
  | _, _ => none

/-- The descending comparison used by
`momentum_entries.sort(key=lambda entry: entry.delta_per_day, reverse=True)`. -/
def deltaDescOrder (a b : MomentumEntry) : Prop :=
  b.deltaPerDay ≤ a.deltaPerDay

instance : DecidableRel deltaDescOrder :=
  fun a b => inferInstanceAs (Decidable (b.deltaPerDay ≤ a.deltaPerDay))

instance : IsTotal MomentumEntry deltaDescOrder :=
  ⟨fun a b => le_total b.deltaPerDay a.deltaPerDay⟩

instance : IsTrans MomentumEntry deltaDescOrder :=
  ⟨fun _ _ _ hab hbc => le_trans hbc hab⟩

/-- Stable descending sort by `delta_per_day` (Python `list.sort` is
stable; insertion sort by a non-strict order is the unique stable sort). -/
def sortByDeltaDesc (entries : List MomentumEntry) : List MomentumEntry :=
  entries.insertionSort deltaDescOrder

/-- A momentum entry with its assigned `rank` and `percentile`.  The
percentile is the exact rational `100*(total - rank + 1)/total`; the
source additionally rounds it to two decimals for storage, a float
presentation detail elided here (the ≥ 75 retention filter uses the
unrounded value). -/
structure RankedEntry where
  entry : MomentumEntry
  rank : Nat
  percentile : ℚ
deriving DecidableEq

/-- The ranking loop of `_compute_window`: sort all qualifying entries
descending by `delta_per_day`, then assign 1-based ranks and percentiles
over the full population. -/
def rankEntries (entries : List MomentumEntry) : List RankedEntry :=
  let sorted := sortByDeltaDesc entries
  let total := sorted.length
  sorted.enum.map fun ie =>
    { entry := ie.2
      rank := ie.1 + 1
      percentile := 100 * ((total : ℚ) - (ie.1 + 1) + 1) / (total : ℚ) }

/-- `filtered_entries`: the rows retained (published) by `_compute_window`,
exactly those whose percentile is at least 75. -/
def publishedEntries (entries : List MomentumEntry) : List RankedEntry :=
  (rankEntries entries).filter fun re => 75 ≤ re.percentile

/-- `Command._compute_window` end to end, on already-grouped per-game
snapshot lists. -/
def compute_window (parse : String → Option Int) (calcDate minBaseline : Int)
    (grouped : List (List GameSnapshot)) : List RankedEntry :=
  publishedEntries (grouped.filterMap (computeEntry parse calcDate minBaseline))

/-! ## Watchlist check phase of `main` (steam_daily.py, Step 1)

Per checked watchlist app: when the fetch succeeded with a name, the
classifier row is built and, when nonempty, queued as a promotion; the
entry's status is set to `"accessible"` either way.  After all checks,
each queued promotion is deleted from the watchlist and its id added to
the known set. -/

/-- The body of the Step-1 loop of `main` for one watchlist app: the
check carries the app id, its fetch outcome and the wishlist data that
was fetched for it. -/
def watchlist_check_step (currentDate : String)
    (st : List (String × WatchlistEntry) × List (Nat × Row))
    (check : Nat × FetchOutcome × Option WishlistData) :
    List (String × WatchlistEntry) × List (Nat × Row) :=
  let watchlist := st.1
  let promotions := st.2
  let aid := check.1
  let details := check.2.1
  let wd := check.2.2
  if details.apiTag == some "success" && truthyStr details.nameField then
    let rowO := build_row details (some aid) wd
    let promotions2 :=
      match rowO with
      | some row => promotions ++ [(aid, row)]
      | none => promotions
    (update_watchlist_entry watchlist aid "accessible" (some details) currentDate, promotions2)
  else
    let status := details.apiTag.getD "no_response"
    (update_watchlist_entry watchlist aid status none currentDate, promotions)

/-- The post-loop promotion application of `main`: delete the promoted id
from the watchlist and add it to the known identifier set. -/
def promoStep (st : List (String × WatchlistEntry) × Finset Nat) (promo : Nat × Row) :
    List (String × WatchlistEntry) × Finset Nat :=
  (eraseA st.1 (toString promo.1), insert promo.1 st.2)

/-- The watchlist phase of one `main` run: check every watchlist app,
then apply the queued promotions.  Returns the final watchlist, the
final known set and the promotion queue. -/
def run_watchlist_phase (currentDate : String)
    (watchlist : List (String × WatchlistEntry)) (knownIds : Finset Nat)
    (checks : List (Nat × FetchOutcome × Option WishlistData)) :
    List (String × WatchlistEntry) × Finset Nat × List (Nat × Row) :=
  let checked := checks.foldl (watchlist_check_step currentDate) (watchlist, [])
  let afterPromo := checked.2.foldl promoStep (checked.1, knownIds)
  (afterPromo.1, afterPromo.2, checked.2)

/-! ## Duplicate detector name normalization (steam_daily.py: `normalize_game_name`)

The regex passes are modelled on character lists.  Word characters
(`\w`) are modelled over the basic-latin range (alphanumeric or
underscore), whitespace (`\s`) by `Char.isWhitespace`, and the case
mapping by the basic-latin `Char.toLower`. -/

/-- Python `\w` (basic-latin range). -/
def isWordChar (c : Char) : Bool := c.isAlphanum || c = '_'

/-- Python `\s`. -/
def isSpaceChar (c : Char) : Bool := c.isWhitespace

/-- The `VERSION_SUFFIXES` token set, in the order of the source
literal (the source iterates a Python set; any fixed order realises one
run's behaviour). -/
def VERSION_SUFFIXES : List (List Char) :=
  ["demo".data, "playtest".data, "beta".data, "alpha".data, "test".data,
   "trial".data, "preview".data, "early access".data, "prologue".data,
   "chapter".data, "episode".data, "dlc".data, "expansion".data]

/-- `str.lower()` per character. -/
def lowerL (l : List Char) : List Char := l.map Char.toLower

/-- Python `str.strip()`. -/
def trimL (l : List Char) : List Char :=
  ((l.dropWhile isSpaceChar).reverse.dropWhile isSpaceChar).reverse

/-- `re.sub(r'[™®©]', '', s)`. -/
def stripTrademark (l : List Char) : List Char :=
  l.filter fun c => !(c = '™' || c = '®' || c = '©')

/-- `re.sub(r'[:\-–—_]', ' ', s)`. -/
def dashToSpace (l : List Char) : List Char :=
  l.map fun c => if c = ':' || c = '-' || c = '–' || c = '—' || c = '_' then ' ' else c

/-- `re.sub(r'[^\w\s]', '', s)`. -/
def keepWordSpace (l : List Char) : List Char :=
  l.filter fun c => isWordChar c || isSpaceChar c

/-- Drop trailing whitespace. -/
def dropTrailingWs (l : List Char) : List Char :=
  (l.reverse.dropWhile isSpaceChar).reverse

/-- `re.sub(rf'\b{re.escape(suffix)}\b\s*$', '', s, flags=re.IGNORECASE)`:
remove one trailing occurrence of the token (and the whitespace after
it).  Each token starts and ends with a word character, so the leading
`\b` holds iff the text before the match is empty or ends in a non-word
character, and the trailing `\b` always holds at the matched position. -/
def stripTrailingTok (tok l : List Char) : List Char :=
  let core := dropTrailingWs l
  if tok.length ≤ core.length then
    let pre := core.take (core.length - tok.length)
    let suf := core.drop (core.length - tok.length)
    if lowerL suf == tok &&
        (match pre.getLast? with
         | none => true
         | some c => ! isWordChar c) then pre
    else l
  else l

/-- Consume one expected literal character. -/
def expectChar (c : Char) : List Char → Option (List Char)
  | [] => none
  | d :: rest => if d = c then some rest else none

/-- Matcher for `\s*\(\s*{suffix}\s*\)\s*` anchored at the current
position; returns the rest of the input after the match.  The greedy
`\s*` runs are maximal whitespace runs because `(`, the token and `)`
all start with non-whitespace. -/
def matchParenAt (tok : List Char) (l : List Char) : Option (List Char) :=
  (expectChar '(' (l.dropWhile isSpaceChar)).bind fun r2 =>
    let r3 := r2.dropWhile isSpaceChar
    if lowerL (r3.take tok.length) == tok && decide (tok.length ≤ r3.length) then
      (expectChar ')' ((r3.drop tok.length).dropWhile isSpaceChar)).map fun r6 =>
        r6.dropWhile isSpaceChar
    else none

/-- Global scan of `re.sub(rf'\s*\(\s*{re.escape(suffix)}\s*\)\s*', ' ',
s, flags=re.IGNORECASE)` with fuel (every match consumes at least two
characters, so `l.length` fuel suffices). -/
def parenSubF (tok : List Char) : Nat → List Char → List Char
  | 0, l => l
  | _ + 1, [] => []
  | fuel + 1, c :: rest =>
      match matchParenAt tok (c :: rest) with
      | some r => ' ' :: parenSubF tok fuel r
      | none => c :: parenSubF tok fuel rest

/-- The parenthesised-suffix substitution. -/
def parenSub (tok l : List Char) : List Char := parenSubF tok l.length l

/-- The suffix loop of `normalize_game_name`: per token, the
end-anchored sub then the parenthesised sub. -/
def stripSuffixPass (l : List Char) : List Char :=
  VERSION_SUFFIXES.foldl (fun acc tok => parenSub tok (stripTrailingTok tok acc)) l

/-- Python `s.split()` (accumulator holds the current word reversed). -/
def wordsAux : List Char → List Char → List (List Char)
  | [], acc => if acc.isEmpty then [] else [acc.reverse]
  | c :: rest, acc =>
      if isSpaceChar c then
        if acc.isEmpty then wordsAux rest [] else acc.reverse :: wordsAux rest []
      else wordsAux rest (c :: acc)

/-- Python `s.split()`. -/
def splitWs (l : List Char) : List (List Char) := wordsAux l []

/-- Python `' '.join(ws)`. -/
def joinWords : List (List Char) → List Char
  | [] => []
  | [w] => w
  | w :: ws => w ++ ' ' :: joinWords ws

/-- `' '.join(s.split())`. -/
def collapseWs (l : List Char) : List Char := joinWords (splitWs l)

/-- `normalize_game_name` on character lists: lowercase and strip, drop
trademark symbols, separators to spaces, drop other punctuation, strip
version suffixes, collapse whitespace. -/
def normalizeChars (l : List Char) : List Char :=
  collapseWs (stripSuffixPass (keepWordSpace (dashToSpace (stripTrademark (trimL (lowerL l))))))

/-- `normalize_game_name(name)` from steam_daily.py. -/
def normalize_game_name (name : String) : String :=
  if name = "" then "" else ⟨normalizeChars name.data⟩

theorem lookupA_insertA {α : Type} (l : List (String × α)) (k : String) (v : α) :
    lookupA (insertA l k v) k = some v := by
  induction l with
  | nil => simp [insertA, lookupA]
  | cons hd tl ih =>
      by_cases hk : hd.1 == k
      · simp [insertA, lookupA, hk]
      · simp [insertA, lookupA, hk, ih]

theorem lookupA_eraseA {α : Type} (l : List (String × α)) (k : String) :
    lookupA (eraseA l k) k = none := by
  induction l with
  | nil => simp [eraseA, lookupA]
  | cons hd tl ih =>
      by_cases hk : hd.1 == k
      · simp [eraseA, hk, ih]
      · simp [eraseA, lookupA, hk, ih]

/-! ## Claim C8 -/

/-- C8: for every previously known identifier set A and current identifier
set B, the catalog differ outputs exactly the set difference B − A; the
output is empty whenever A ⊇ B; and when no previous list exists (first
run) the entire current list is reported as new. -/
theorem catalog_differ_correct :
    (∀ A B : Finset Nat, newAppIds B A = B \ A) ∧
    (∀ A B : Finset Nat, B ⊆ A → newAppIds B A = ∅) ∧
    (∀ B : Finset Nat, newAppIds B (load_known_appids none) = B) := by
  refine ⟨fun A B => rfl, fun A B h => ?_, fun B => ?_⟩
  · rw [newAppIds, Finset.sdiff_eq_empty_iff_subset]
    exact h
  · simp [newAppIds, load_known_appids]

/-- Witness for C8, at A = {1, 2, 3}, B = {1, 2}. -/
theorem catalog_differ_correct_witness :
    ({1, 2} : Finset Nat) ⊆ {1, 2, 3} ∧
    newAppIds ({1, 2} : Finset Nat) {1, 2, 3} = ∅ ∧
    newAppIds ({4, 5} : Finset Nat) (load_known_appids none) = {4, 5} :=
  ⟨by decide, catalog_differ_correct.2.1 {1, 2, 3} {1, 2} (by decide),
    catalog_differ_correct.2.2 {4, 5}⟩

/-! ## Claim C4 -/

/-- C4: checking an already-tracked identifier increments `check_count` by
exactly 1 and sets `last_checked` to the check date; `status_history`
gains exactly one `{date, status}` entry when the new status differs from
the stored `current_status` and is unchanged otherwise; a first-time entry
starts with `check_count = 1` and a one-element history. -/
theorem watchlist_check_transition (w : List (String × WatchlistEntry)) (aid : Nat)
    (status : String) (d : Option FetchOutcome) (date : String) :
    (∀ e c, lookupA w (toString aid) = some e → e.checkCount = some c →
      ∃ e2, lookupA (update_watchlist_entry w aid status d date) (toString aid) = some e2 ∧
        e2.checkCount = some (c + 1) ∧ e2.lastChecked = date ∧
        e2.statusHistory = (if e.currentStatus ≠ some status
          then e.statusHistory ++ [(date, status)] else e.statusHistory)) ∧
    (lookupA w (toString aid) = none →
      ∃ e2, lookupA (update_watchlist_entry w aid status d date) (toString aid) = some e2 ∧
        e2.checkCount = some 1 ∧ e2.statusHistory = [(date, status)] ∧
        e2.lastChecked = date ∧ e2.firstDetected = date) := by
  constructor
  · intro e c he hc
    simp only [update_watchlist_entry, he]
    refine ⟨_, lookupA_insertA _ _ _, ?_⟩
    simp only [hc]
    rcases d with _ | dd
    · by_cases hcs : e.currentStatus = some status <;> simp [hcs]
    · by_cases hcs : e.currentStatus = some status <;>
        by_cases ht : truthyStr dd.nameField <;> simp [hcs, ht]
  · intro he
    simp only [update_watchlist_entry, he]
    refine ⟨_, lookupA_insertA _ _ _, ?_⟩
    rcases d with _ | dd
    · simp
    · by_cases ht : truthyStr dd.nameField <;> simp [ht]

/-- Witness for C4: a tracked entry with `check_count = 2` and current
status `"failed"` checked with outcome `"error"`, and a first-time check. -/
theorem watchlist_check_transition_witness :
    (∃ e2, lookupA (update_watchlist_entry
        [("7", ⟨"2025-01-01", "2025-01-01", [("2025-01-01", "failed")], some 2,
          some "failed", none, none⟩)] 7 "error" none "2025-01-02") (toString 7) = some e2 ∧
      e2.checkCount = some (2 + 1) ∧ e2.lastChecked = "2025-01-02" ∧
      e2.statusHistory = [("2025-01-01", "failed"), ("2025-01-02", "error")]) ∧
    (∃ e2, lookupA (update_watchlist_entry [] 9 "failed" none "2025-01-03") (toString 9) = some e2 ∧
      e2.checkCount = some 1 ∧ e2.statusHistory = [("2025-01-03", "failed")] ∧
      e2.lastChecked = "2025-01-03" ∧ e2.firstDetected = "2025-01-03") := by
  constructor
  · obtain ⟨e2, h1, h2, h3, h4⟩ :=
      (watchlist_check_transition
        [("7", ⟨"2025-01-01", "2025-01-01", [("2025-01-01", "failed")], some 2,
          some "failed", none, none⟩)] 7 "error" none "2025-01-02").1
        ⟨"2025-01-01", "2025-01-01", [("2025-01-01", "failed")], some 2,
          some "failed", none, none⟩ 2 (by decide) rfl
    refine ⟨e2, h1, h2, h3, ?_⟩
    rw [h4]
    decide
  · exact (watchlist_check_transition [] 9 "failed" none "2025-01-03").2 (by decide)

/-! ## Claim C6 -/

theorem fetchOutcome_tag_cases (o : FetchOutcome) :
    o.apiTag ∈ [some "success", some "failed", some "rate_limited", some "error"] ∨
    o = .emptyPayload := by
  cases o <;> simp [FetchOutcome.apiTag]

theorem fetchRetryAux_all429 (appid : Nat) (upstream : Nat → Attempt) (maxRetries : Nat)
    (h429 : ∀ i, ∃ s d, upstream i = .ok 429 s d) :
    ∀ fuel attempt, fuel + attempt = maxRetries → 0 < fuel →
      fetchRetryAux appid upstream maxRetries fuel attempt = (.rateLimited appid, maxRetries) := by
  intro fuel
  induction fuel with
  | zero => intro attempt _ hpos; omega
  | succ f ih =>
      intro attempt hsum _
      obtain ⟨s, d, hup⟩ := h429 attempt
      simp only [fetchRetryAux, hup, eq_self_iff_true, if_true]
      by_cases hlt : attempt < maxRetries - 1
      · rw [if_pos hlt]
        exact ih (attempt + 1) (by omega) (by omega)
      · rw [if_neg hlt]
        have hfin : attempt + 1 = maxRetries := by omega
        rw [hfin]

/-- C6 counterexample: a success response with an empty `data` member
makes the fetch client return the empty dict, which carries none of the
four `_api_response` tags (after a single attempt). -/
theorem fetch_client_tag_counterexample :
    (fetch_app_details_with_retry 5 (fun _ => .ok 200 true none) 3).1.apiTag ∉
      [some "success", some "failed", some "rate_limited", some "error"] ∧
    (fetch_app_details_with_retry 5 (fun _ => .ok 200 true none) 3) = (.emptyPayload, 1) := by
  decide

/-- C6 amended: for every identifier and upstream behaviour, the fetch
clients return (never raise: they are total functions into result data)
a result tagged with exactly one of {success, failed, rate_limited,
error}, except that a success response whose `data` payload is empty
yields the empty, untagged dict; exhausting the HTTP 429 retry budget
yields the `rate_limited` tag. -/
theorem fetch_client_tagged_total :
    (∀ appid upstream maxRetries,
      (fetch_app_details_with_retry appid upstream maxRetries).1.apiTag ∈
        [some "success", some "failed", some "rate_limited", some "error"] ∨
      (fetch_app_details_with_retry appid upstream maxRetries).1 = .emptyPayload) ∧
    (∀ appid upstream,
      (fetch_app_details appid upstream).apiTag ∈
        [some "success", some "failed", some "rate_limited", some "error"] ∨
      fetch_app_details appid upstream = .emptyPayload) ∧
    (∀ appid upstream maxRetries, 0 < maxRetries →
      (∀ i, ∃ s d, upstream i = .ok 429 s d) →
      fetch_app_details_with_retry appid upstream maxRetries = (.rateLimited appid, maxRetries)) := by
  refine ⟨fun appid upstream maxRetries => fetchOutcome_tag_cases _,
    fun appid upstream => fetchOutcome_tag_cases _,
    fun appid upstream maxRetries hpos h429 => ?_⟩
  exact fetchRetryAux_all429 appid upstream maxRetries h429 maxRetries 0 (by omega) hpos

/-- Witness for C6 at a persistently rate-limited upstream. -/
theorem fetch_client_tagged_total_witness :
    0 < 3 ∧ fetch_app_details_with_retry 9 (fun _ => .ok 429 true none) 3 = (.rateLimited 9, 3) :=
  ⟨by decide, fetch_client_tagged_total.2.2 9 (fun _ => .ok 429 true none) 3 (by decide)
    (fun _ => ⟨true, none, rfl⟩)⟩

/-! ## Claim C7 -/

theorem fetchRetryAux_all403 (appid : Nat) (maxRetries : Nat) (s : Bool) (d : Option Payload) :
    ∀ fuel attempt, fuel + attempt = maxRetries → 0 < fuel →
      fetchRetryAux appid (fun _ => .ok 403 s d) maxRetries fuel attempt = (.error appid, maxRetries) := by
  intro fuel
  induction fuel with
  | zero => intro attempt _ hpos; omega
  | succ f ih =>
      intro attempt hsum _
      simp only [fetchRetryAux]
      rw [if_neg (by omega), if_pos (by omega)]
      by_cases hlt : attempt < maxRetries - 1
      · rw [if_pos hlt]
        exact ih (attempt + 1) (by omega) (by omega)
      · rw [if_neg hlt]
        have hfin : attempt + 1 = maxRetries := by omega
        rw [hfin]

/-- C7 counterexample: the detail fetcher retries an HTTP 403 response up
to the attempt budget (three upstream calls, not one) and then reports
`error` — exactly the outcome of a persistent transient network failure. -/
theorem detail_fetch_403_counterexample :
    fetch_app_details_with_retry 77 (fun _ => .ok 403 false none) 3 = (.error 77, 3) ∧
    fetch_app_details_with_retry 77 (fun _ => .reqExc) 3 = (.error 77, 3) := by
  decide

/-- C7 amended: only the SteamDB wishlist-rank fetcher treats HTTP 403 as
permanent and non-retryable (it returns no rank after a single attempt);
the app-details fetcher retries a 403 like any other request error and,
after exhausting its attempts, reports `error`, indistinguishable from a
transient failure. -/
theorem blocked_403_handling :
    (∀ upstream maxRetries r, 0 < maxRetries → upstream 0 = .ok 403 r →
      fetch_wishlist_rank_with_retry upstream maxRetries = (none, 1)) ∧
    (∀ appid maxRetries (s : Bool) (d : Option Payload), 0 < maxRetries →
      fetch_app_details_with_retry appid (fun _ => .ok 403 s d) maxRetries =
        (.error appid, maxRetries)) := by
  constructor
  · intro upstream maxRetries r hpos hup
    obtain ⟨m, rfl⟩ : ∃ m, maxRetries = m + 1 := ⟨maxRetries - 1, by omega⟩
    simp [fetch_wishlist_rank_with_retry, rankRetryAux, hup]
  · intro appid maxRetries s d hpos
    exact fetchRetryAux_all403 appid maxRetries s d maxRetries 0 (by omega) hpos

/-- Witness for C7: 403 on the first rank-fetch attempt, and a
persistently 403-blocked detail fetch. -/
theorem blocked_403_handling_witness :
    0 < 2 ∧ fetch_wishlist_rank_with_retry (fun _ => .ok 403 (some 5)) 2 = (none, 1) ∧
    fetch_app_details_with_retry 4 (fun _ => .ok 403 true none) 2 = (.error 4, 2) :=
  ⟨by decide, blocked_403_handling.1 (fun _ => .ok 403 (some 5)) 2 (some 5) (by decide) rfl,
    blocked_403_handling.2 4 2 true none (by decide)⟩

/-! ## Claim C3 -/

/-- C3 counterexample: a fetch result tagged `rate_limited` is classified
`minimal_data` by `build_row`, not `early_stage` (it is not matched by
the `["failed", "error"]` membership test and falls through to the
nameless legacy branch). -/
theorem rate_limited_stage_counterexample :
    (build_row (.rateLimited 123) (some 123) none).map (fun r => r.detectionStage) =
      some "minimal_data" ∧
    (build_row (.rateLimited 123) (some 123) none).map (fun r => r.detectionStage) ≠
      some "early_stage" := by
  decide

/-- C3 amended: fetch results tagged `failed` or `error` — including
blocked HTTP 403 responses, which the fetcher surfaces as `error` — are
classified `early_stage`, but results tagged `rate_limited` fall through
to the nameless legacy branch and are classified `minimal_data`. -/
theorem nonsuccess_detection_stage (appIdKey : Nat) (appId : Option Nat)
    (wd : Option WishlistData) :
    (build_row (.failed appIdKey) appId wd).map (fun r => r.detectionStage) =
      some "early_stage" ∧
    (build_row (.error appIdKey) appId wd).map (fun r => r.detectionStage) =
      some "early_stage" ∧
    (∀ (s : Bool) (d : Option Payload),
      (build_row (fetch_app_details appIdKey (.ok 403 s d)) appId wd).map
        (fun r => r.detectionStage) = some "early_stage") ∧
    (build_row (.rateLimited appIdKey) appId wd).map (fun r => r.detectionStage) =
      some "minimal_data" :=
  ⟨rfl, rfl, fun _ _ => rfl, rfl⟩

/-! ## Claim C2 -/

/-- C2: a successfully fetched detail record with a title name is
filtered out (empty classifier result) iff its release metadata
explicitly marks it released (`coming_soon` exactly `False`); and the
momentum engine's unreleased heuristic treats unparseable, placeholder
and future-parsed release-date text as unreleased, never as released. -/
theorem released_filter_iff :
    (∀ p appId wd, truthyStr p.name = true → p.appid = none →
      (build_row (.success p) appId wd = none ↔
        (p.releaseDate.getD ⟨none, none⟩).comingSoon = some false)) ∧
    (∀ parse snapshot calcDate,
      (parse ((snapshot.releaseDateRaw.getD "").trim) = none ∨
       hasPlaceholderToken (lowerStr ((snapshot.releaseDateRaw.getD "").trim)) = true ∨
       (∃ d, parse ((snapshot.releaseDateRaw.getD "").trim) = some d ∧ calcDate < d)) →
      is_unreleased parse snapshot calcDate = true) := by
  constructor
  · intro p appId wd hname happid
    have htn : truthyNat p.appid = false := by rw [happid]; rfl
    simp only [build_row, htn, Bool.false_eq_true, if_false, legacyRow,
      FetchOutcome.nameField, FetchOutcome.releaseDateField, hname, if_true]
    split_ifs with h
    · simpa using h
    · simp [h]
  · intro parse snapshot calcDate hyp
    simp only [is_unreleased]
    split_ifs with hstage hraw hplace
    · rfl
    · rfl
    · rfl
    · rcases hyp with hnone | hplace2 | ⟨d, hd, hfut⟩
      · rw [hnone]
      · exact absurd hplace2 (by simpa using hplace)
      · rw [hd]
        simpa using hfut

/-- Witness for C2: an explicitly released record is filtered out; a
"TBA"-dated snapshot (whose stage text contains "released") is treated
as unreleased even though its date text cannot be parsed. -/
theorem released_filter_iff_witness :
    truthyStr (Payload.name ⟨none, some "Released Game", some 10, some "game",
        some ⟨some false, some "1 Jan, 2020"⟩, none⟩) = true ∧
    build_row (.success ⟨none, some "Released Game", some 10, some "game",
        some ⟨some false, some "1 Jan, 2020"⟩, none⟩) none none = none ∧
    is_unreleased (fun _ => none) ⟨1, 0, none, none, some "public_unreleased", some "TBA"⟩ 5 = true := by
  refine ⟨by decide, ?_, ?_⟩
  · exact (released_filter_iff.1 ⟨none, some "Released Game", some 10, some "game",
      some ⟨some false, some "1 Jan, 2020"⟩, none⟩ none none (by decide) rfl).mpr (by decide)
  · exact released_filter_iff.2 (fun _ => none)
      ⟨1, 0, none, none, some "public_unreleased", some "TBA"⟩ 5 (Or.inl rfl)

/-! ## Claim C5 -/

theorem lookupA_eraseA_none {α : Type} (l : List (String × α)) (k k2 : String)
    (h : lookupA l k = none) : lookupA (eraseA l k2) k = none := by
  induction l with
  | nil => simp [eraseA, lookupA]
  | cons hd tl ih =>
      have hk : (hd.1 == k) = false := by
        by_contra hc
        rw [Bool.not_eq_false] at hc
        simp [lookupA, hc] at h
      have htl : lookupA tl k = none := by simpa [lookupA, hk] using h
      by_cases h2 : (hd.1 == k2)
      · simpa [eraseA, h2] using ih htl
      · simp [eraseA, h2, lookupA, hk, ih htl]

theorem promoFold_lookup_none (promos : List (Nat × Row))
    (st : List (String × WatchlistEntry) × Finset Nat) (key : String)
    (h : lookupA st.1 key = none) :
    lookupA (promos.foldl promoStep st).1 key = none := by
  induction promos generalizing st with
  | nil => simpa using h
  | cons hd tl ih =>
      simp only [List.foldl_cons]
      exact ih _ (lookupA_eraseA_none _ _ _ h)

theorem promoFold_erases (promos : List (Nat × Row))
    (st : List (String × WatchlistEntry) × Finset Nat) (aid : Nat)
    (h : aid ∈ promos.map Prod.fst) :
    lookupA (promos.foldl promoStep st).1 (toString aid) = none := by
  induction promos generalizing st with
  | nil => simp at h
  | cons hd tl ih =>
      simp only [List.map_cons, List.mem_cons] at h
      by_cases heq : aid = hd.1
      · simp only [List.foldl_cons]
        apply promoFold_lookup_none
        rw [heq]
        exact lookupA_eraseA _ _
      · simp only [List.foldl_cons]
        exact ih _ (h.resolve_left heq)

theorem promoFold_known (promos : List (Nat × Row))
    (st : List (String × WatchlistEntry) × Finset Nat) (aid : Nat)
    (h : aid ∈ promos.map Prod.fst ∨ aid ∈ st.2) :
    aid ∈ (promos.foldl promoStep st).2 := by
  induction promos generalizing st with
  | nil => simpa using h.resolve_left (by simp)
  | cons hd tl ih =>
      simp only [List.foldl_cons]
      apply ih
      rcases h with h | h
      · simp only [List.map_cons, List.mem_cons] at h
        rcases h with h | h
        · right; rw [h]; exact Finset.mem_insert_self _ _
        · left; exact h
      · right; exact Finset.mem_insert_of_mem h

theorem checkStep_promotions_append (currentDate : String)
    (st : List (String × WatchlistEntry) × List (Nat × Row))
    (check : Nat × FetchOutcome × Option WishlistData) :
    ∃ tail, (watchlist_check_step currentDate st check).2 = st.2 ++ tail := by
  simp only [watchlist_check_step]
  split_ifs with h
  · cases hrow : build_row check.2.1 (some check.1) check.2.2 with
    | none => exact ⟨[], by simp [hrow]⟩
    | some row => exact ⟨[(check.1, row)], by simp [hrow]⟩
  · exact ⟨[], by simp⟩

theorem checkFold_promo_mono (currentDate : String)
    (checks : List (Nat × FetchOutcome × Option WishlistData))
    (st : List (String × WatchlistEntry) × List (Nat × Row)) (aid : Nat)
    (h : aid ∈ st.2.map Prod.fst) :
    aid ∈ ((checks.foldl (watchlist_check_step currentDate) st).2.map Prod.fst) := by
  induction checks generalizing st with
  | nil => simpa using h
  | cons hd tl ih =>
      simp only [List.foldl_cons]
      apply ih
      obtain ⟨tail, htail⟩ := checkStep_promotions_append currentDate st hd
      rw [htail, List.map_append]
      exact List.mem_append_left _ h

theorem checkFold_promotes (currentDate : String)
    (checks : List (Nat × FetchOutcome × Option WishlistData))
    (st : List (String × WatchlistEntry) × List (Nat × Row)) (aid : Nat) (p : Payload)
    (wd : Option WishlistData)
    (hmem : (aid, FetchOutcome.success p, wd) ∈ checks)
    (hname : truthyStr p.name = true)
    (hrow : build_row (.success p) (some aid) wd ≠ none) :
    aid ∈ ((checks.foldl (watchlist_check_step currentDate) st).2.map Prod.fst) := by
  induction checks generalizing st with
  | nil => simp at hmem
  | cons hd tl ih =>
      rcases List.mem_cons.mp hmem with heq | hmem2
      · obtain ⟨row, hrow2⟩ := Option.ne_none_iff_exists'.mp hrow
        simp only [List.foldl_cons, ← heq]
        apply checkFold_promo_mono
        have hstep : (watchlist_check_step currentDate st (aid, .success p, wd)).2 =
            st.2 ++ [(aid, row)] := by
          simp [watchlist_check_step, FetchOutcome.apiTag, FetchOutcome.nameField, hname, hrow2]
        rw [hstep, List.map_append]
        exact List.mem_append_right _ (by simp)
      · simp only [List.foldl_cons]
        exact ih _ hmem2

/-- C5 counterexample: a tracked app whose recheck succeeds with a name
but is explicitly released (`coming_soon` is `False`) gets an empty
classifier row, so it is never queued for promotion — yet its watchlist
status is still set to `"accessible"`.  After the run it remains in the
watchlist with `current_status = "accessible"` and was never added to
the known set. -/
theorem accessible_terminal_counterexample :
    (lookupA (run_watchlist_phase "2025-02-01"
        [("1", ⟨"2025-01-01", "2025-01-01", [("2025-01-01", "failed")], some 1,
          some "failed", none, none⟩)] ∅
        [(1, .success ⟨none, some "Released Game", some 1, some "game",
          some ⟨some false, some "1 Jan, 2020"⟩, none⟩, none)]).1 "1").map
      (fun e => e.currentStatus) = some (some "accessible") ∧
    (run_watchlist_phase "2025-02-01"
        [("1", ⟨"2025-01-01", "2025-01-01", [("2025-01-01", "failed")], some 1,
          some "failed", none, none⟩)] ∅
        [(1, .success ⟨none, some "Released Game", some 1, some "game",
          some ⟨some false, some "1 Jan, 2020"⟩, none⟩, none)]).2.1 = ∅ ∧
    (run_watchlist_phase "2025-02-01"
        [("1", ⟨"2025-01-01", "2025-01-01", [("2025-01-01", "failed")], some 1,
          some "failed", none, none⟩)] ∅
        [(1, .success ⟨none, some "Released Game", some 1, some "game",
          some ⟨some false, some "1 Jan, 2020"⟩, none⟩, none)]).2.2 = [] := by
  decide

/-- C5 amended: whenever a watchlist check resolves with a successful,
named fetch *and* the classifier produces a nonempty row (the record is
not explicitly marked already-released), the identifier is removed from
the watchlist and added to the known-identifier set within the same run;
a check classified as already-released instead leaves the entry
watchlisted with status `"accessible"`. -/
theorem accessible_promotion (currentDate : String)
    (watchlist : List (String × WatchlistEntry)) (knownIds : Finset Nat)
    (checks : List (Nat × FetchOutcome × Option WishlistData))
    (aid : Nat) (p : Payload) (wd : Option WishlistData)
    (hmem : (aid, FetchOutcome.success p, wd) ∈ checks)
    (hname : truthyStr p.name = true)
    (hrow : build_row (.success p) (some aid) wd ≠ none) :
    lookupA (run_watchlist_phase currentDate watchlist knownIds checks).1 (toString aid) = none ∧
    aid ∈ (run_watchlist_phase currentDate watchlist knownIds checks).2.1 := by
  have hpromo := checkFold_promotes currentDate checks (watchlist, []) aid p wd hmem hname hrow
  simp only [run_watchlist_phase]
  exact ⟨promoFold_erases _ _ _ hpromo, promoFold_known _ _ _ (Or.inl hpromo)⟩

/-- Witness for C5: a tracked app that becomes accessible with a
coming-soon store page is promoted out of the watchlist and into the
known set. -/
theorem accessible_promotion_witness :
    lookupA (run_watchlist_phase "2025-02-01"
        [("1", ⟨"2025-01-01", "2025-01-01", [("2025-01-01", "failed")], some 1,
          some "failed", none, none⟩)] ∅
        [(1, .success ⟨none, some "New Game", some 1, some "game",
          some ⟨some true, some "2026"⟩, none⟩, none)]).1 (toString 1) = none ∧
    1 ∈ (run_watchlist_phase "2025-02-01"
        [("1", ⟨"2025-01-01", "2025-01-01", [("2025-01-01", "failed")], some 1,
          some "failed", none, none⟩)] ∅
        [(1, .success ⟨none, some "New Game", some 1, some "game",
          some ⟨some true, some "2026"⟩, none⟩, none)]).2.1 :=
  accessible_promotion "2025-02-01"
    [("1", ⟨"2025-01-01", "2025-01-01", [("2025-01-01", "failed")], some 1,
      some "failed", none, none⟩)] ∅
    [(1, .success ⟨none, some "New Game", some 1, some "game",
      some ⟨some true, some "2026"⟩, none⟩, none)]
    1 ⟨none, some "New Game", some 1, some "game", some ⟨some true, some "2026"⟩, none⟩ none
    (by decide) (by decide) (by decide)

/-! ## Claim C1 -/

theorem map_rank_enum {α : Type} (l : List α) :
    l.enum.map (fun ie => ie.1 + 1) = List.range' 1 l.length := by
  have h1 : (fun ie : Nat × α => ie.1 + 1) = (fun n => n + 1) ∘ Prod.fst := rfl
  rw [h1, ← List.map_map, List.enum_map_fst, List.range'_eq_map_range]
  exact List.map_congr_left fun n _ => Nat.add_comm n 1

theorem length_sortByDeltaDesc (entries : List MomentumEntry) :
    (sortByDeltaDesc entries).length = entries.length :=
  (entries.perm_insertionSort deltaDescOrder).length_eq

/-- C1: for a fixed (window, calculation date), a title qualifies iff both
window-endpoint snapshots have a metric value, the baseline is at least
the minimum threshold, the latest snapshot is still unreleased at the
calculation date, and the delta is strictly positive; every qualifying
title gets `delta_per_day = delta / max(1, days_between)`; and the
qualifying titles, sorted descending by `delta_per_day`, receive ranks
forming the sequence 1..N with `percentile = 100*(N - rank + 1)/N` over
the full qualifying population, exactly the entries with percentile ≥ 75
being published. -/
theorem momentum_window_correct :
    (∀ parse calcDate minBaseline (data : List GameSnapshot) firstSnapshot lastSnapshot,
      data.head? = some firstSnapshot → data.getLast? = some lastSnapshot →
      ((computeEntry parse calcDate minBaseline data).isSome ↔
        ∃ ms me, (primary_metric firstSnapshot).1 = some ms ∧
          (primary_metric lastSnapshot).1 = some me ∧
          minBaseline ≤ ms ∧ is_unreleased parse lastSnapshot calcDate = true ∧ ms < me)) ∧
    (∀ parse calcDate minBaseline (data : List GameSnapshot) firstSnapshot lastSnapshot e,
      data.head? = some firstSnapshot → data.getLast? = some lastSnapshot →
      computeEntry parse calcDate minBaseline data = some e →
      ∃ ms me, (primary_metric firstSnapshot).1 = some ms ∧
        (primary_metric lastSnapshot).1 = some me ∧
        e.baselineValue = ms ∧ e.deltaFollowers = me - ms ∧ 0 < e.deltaFollowers ∧
        e.deltaPerDay = (e.deltaFollowers : ℚ) /
          ((max 1 (lastSnapshot.ingestedForDate - firstSnapshot.ingestedForDate) : ℤ) : ℚ)) ∧
    (∀ entries : List MomentumEntry,
      List.Sorted deltaDescOrder (sortByDeltaDesc entries) ∧
      (sortByDeltaDesc entries).Perm entries ∧
      (rankEntries entries).map (fun re => re.rank) = List.range' 1 entries.length ∧
      (∀ re ∈ rankEntries entries, re.percentile =
        100 * ((entries.length : ℚ) - (re.rank : ℚ) + 1) / (entries.length : ℚ)) ∧
      publishedEntries entries = (rankEntries entries).filter (fun re => 75 ≤ re.percentile)) := by
  refine ⟨?_, ?_, ?_⟩
  · intro parse calcDate minBaseline data firstSnapshot lastSnapshot hfirst hlast
    simp only [computeEntry, hfirst, hlast]
    rcases hm1 : (primary_metric firstSnapshot).1 with _ | ms
    · simp [hm1]
    · rcases hm2 : (primary_metric lastSnapshot).1 with _ | me2
      · simp [hm1, hm2]
      · dsimp only
        simp only [Option.some.injEq]
        constructor
        · intro hsome
          by_cases h1 : ms < minBaseline
          · rw [if_pos h1] at hsome; simp at hsome
          · rw [if_neg h1] at hsome
            by_cases h2 : (!is_unreleased parse lastSnapshot calcDate) = true
            · rw [if_pos h2] at hsome; simp at hsome
            · rw [if_neg h2] at hsome
              by_cases h3 : me2 - ms ≤ 0
              · rw [if_pos h3] at hsome; simp at hsome
              · refine ⟨ms, me2, rfl, rfl, by omega, ?_, by omega⟩
                revert h2
                cases is_unreleased parse lastSnapshot calcDate <;> simp
        · rintro ⟨ms', me', rfl, rfl, hbase, hunrel, hlt⟩
          rw [if_neg (by omega), if_neg (by rw [hunrel]; simp), if_neg (by omega)]
          simp
  · intro parse calcDate minBaseline data firstSnapshot lastSnapshot e hfirst hlast he
    simp only [computeEntry, hfirst, hlast] at he
    rcases hm1 : (primary_metric firstSnapshot).1 with _ | ms
    · rw [hm1] at he
      dsimp only at he
      exact absurd he (by simp)
    · rcases hm2 : (primary_metric lastSnapshot).1 with _ | me2
      · rw [hm1, hm2] at he
        dsimp only at he
        exact absurd he (by simp)
      · rw [hm1, hm2] at he
        dsimp only at he
        by_cases h1 : ms < minBaseline
        · rw [if_pos h1] at he; exact absurd he (by simp)
        · rw [if_neg h1] at he
          by_cases h2 : (!is_unreleased parse lastSnapshot calcDate) = true
          · rw [if_pos h2] at he; exact absurd he (by simp)
          · rw [if_neg h2] at he
            by_cases h3 : me2 - ms ≤ 0
            · rw [if_pos h3] at he; exact absurd he (by simp)
            · rw [if_neg h3] at he
              obtain rfl := ((Option.some.injEq _ _).mp he).symm
              exact ⟨ms, me2, rfl, rfl, rfl, rfl, by show (0:ℤ) < me2 - ms; omega, rfl⟩
  · intro entries
    have hlen := length_sortByDeltaDesc entries
    refine ⟨entries.sorted_insertionSort deltaDescOrder,
      entries.perm_insertionSort deltaDescOrder, ?_, ?_, rfl⟩
    · simp only [rankEntries, List.map_map]
      have : ((fun re : RankedEntry => re.rank) ∘
          (fun ie : Nat × MomentumEntry =>
            ({ entry := ie.2, rank := ie.1 + 1,
               percentile := 100 * (((sortByDeltaDesc entries).length : ℚ) - (ie.1 + 1) + 1) /
                 ((sortByDeltaDesc entries).length : ℚ) } : RankedEntry))) =
          fun ie : Nat × MomentumEntry => ie.1 + 1 := rfl
      rw [this, map_rank_enum, hlen]
    · intro re hre
      simp only [rankEntries, List.mem_map] at hre
      obtain ⟨ie, _, rfl⟩ := hre
      simp only [hlen]
      push_cast
      ring


/-- Witness for C1: a two-snapshot window (baseline 100 on day 0, latest
170 on day 7, threshold 50) qualifies, and an empty cohort ranks to the
empty sequence. -/
theorem momentum_window_correct_witness :
    (computeEntry (fun _ => none) 7 50
      [⟨1, 0, some 100, none, some "early_stage", none⟩,
       ⟨1, 7, some 170, none, some "early_stage", none⟩]).isSome = true ∧
    (rankEntries []).map (fun re => re.rank) = List.range' 1 ([] : List MomentumEntry).length := by
  constructor
  · refine (momentum_window_correct.1 (fun _ => none) 7 50
      [⟨1, 0, some 100, none, some "early_stage", none⟩,
       ⟨1, 7, some 170, none, some "early_stage", none⟩]
      ⟨1, 0, some 100, none, some "early_stage", none⟩
      ⟨1, 7, some 170, none, some "early_stage", none⟩ rfl rfl).mpr ?_
    exact ⟨100, 170, by decide, by decide, by decide, by decide, by decide⟩
  · exact (momentum_window_correct.2.2 []).2.2.1

/-! ## Claim C10 -/

/-- C10: the momentum metric is chosen independently per snapshot —
follower count when present, otherwise estimated wishlists — so a window
whose baseline snapshot carries only a follower count and whose latest
snapshot carries only a wishlist estimate still qualifies (given the
other gates), with the delta computed across the two different metrics. -/
theorem mixed_metric_window (parse : String → Option Int) (calcDate minBaseline : Int)
    (s1 s2 : GameSnapshot) (a b : Int)
    (h1f : s1.followers = some a) (h1w : s1.wishlistsEst = none)
    (h2f : s2.followers = none) (h2w : s2.wishlistsEst = some b)
    (hbase : minBaseline ≤ a) (hunrel : is_unreleased parse s2 calcDate = true)
    (hpos : a < b) :
    ∃ e, computeEntry parse calcDate minBaseline [s1, s2] = some e ∧
      e.baselineValue = a ∧ e.deltaFollowers = b - a ∧
      e.deltaPerDay = ((b - a : Int) : ℚ) /
        ((max 1 (s2.ingestedForDate - s1.ingestedForDate) : Int) : ℚ) := by
  have hm1 : (primary_metric s1).1 = some a := by simp [primary_metric, h1f]
  have hm2 : (primary_metric s2).1 = some b := by simp [primary_metric, h2f, h2w]
  have hhead : ([s1, s2] : List GameSnapshot).head? = some s1 := rfl
  have hlast : ([s1, s2] : List GameSnapshot).getLast? = some s2 := rfl
  simp only [computeEntry, hhead, hlast]
  rw [hm1, hm2]
  dsimp only
  rw [if_neg (by omega), if_neg (by rw [hunrel]; simp), if_neg (by omega)]
  exact ⟨_, rfl, rfl, rfl, rfl⟩

/-- Witness for C10: baseline snapshot with followers 80 only, latest
snapshot with estimated wishlists 200 only; the title is ranked with
delta 120 across the two metrics. -/
theorem mixed_metric_window_witness :
    ∃ e, computeEntry (fun _ => none) 7 50
        [⟨2, 0, some 80, none, some "early_stage", none⟩,
         ⟨2, 7, none, some 200, some "early_stage", none⟩] = some e ∧
      e.baselineValue = 80 ∧ e.deltaFollowers = 200 - 80 ∧
      e.deltaPerDay = ((200 - 80 : Int) : ℚ) /
        ((max 1 ((⟨2, 7, none, some 200, some "early_stage", none⟩ : GameSnapshot).ingestedForDate -
          (⟨2, 0, some 80, none, some "early_stage", none⟩ : GameSnapshot).ingestedForDate) : Int) : ℚ) :=
  mixed_metric_window (fun _ => none) 7 50
    ⟨2, 0, some 80, none, some "early_stage", none⟩
    ⟨2, 7, none, some 200, some "early_stage", none⟩ 80 200
    rfl rfl rfl rfl (by decide) (by decide) (by decide)

/-! ## Claim C9 -/

theorem toLower_toLower (c : Char) : c.toLower.toLower = c.toLower := by
  unfold Char.toLower
  by_cases h : c.toNat ≥ 65 ∧ c.toNat ≤ 90
  · rw [if_pos h]
    obtain ⟨h1, h2⟩ := h
    generalize hn : c.toNat = n at h1 h2
    interval_cases n <;> decide
  · rw [if_neg h, if_neg h]

theorem listMapSelf {l : List Char} {f : Char → Char} (h : ∀ c ∈ l, f c = c) :
    l.map f = l := by
  conv_rhs => rw [← List.map_id l]
  exact List.map_congr_left h

theorem mem_trimL {l : List Char} {c : Char} (h : c ∈ trimL l) : c ∈ l := by
  unfold trimL at h
  rw [List.mem_reverse] at h
  have h2 := (List.dropWhile_sublist _).subset h
  rw [List.mem_reverse] at h2
  exact (List.dropWhile_sublist _).subset h2

theorem mem_dropTrailingWs {l : List Char} {c : Char} (h : c ∈ dropTrailingWs l) : c ∈ l := by
  unfold dropTrailingWs at h
  rw [List.mem_reverse] at h
  have h2 := (List.dropWhile_sublist _).subset h
  rwa [List.mem_reverse] at h2

theorem mem_stripTrailingTok {tok l : List Char} {c : Char}
    (h : c ∈ stripTrailingTok tok l) : c ∈ l := by
  simp only [stripTrailingTok] at h
  split_ifs at h with h1 h2
  · exact mem_dropTrailingWs (List.take_subset _ _ h)
  · exact h
  · exact h

theorem expectChar_subset {c : Char} {l r : List Char} (h : expectChar c l = some r) :
    ∀ x ∈ r, x ∈ l := by
  cases l with
  | nil => simp [expectChar] at h
  | cons d rest =>
      simp only [expectChar] at h
      split_ifs at h with hd
      obtain rfl := (Option.some.injEq _ _).mp h
      exact fun x hx => List.mem_cons_of_mem _ hx

theorem matchParenAt_subset {tok l r : List Char} (h : matchParenAt tok l = some r) :
    ∀ c ∈ r, c ∈ l := by
  intro c hc
  simp only [matchParenAt, Option.bind_eq_some] at h
  obtain ⟨r2, h2, h3⟩ := h
  split_ifs at h3 with hcond
  rw [Option.map_eq_some'] at h3
  obtain ⟨r6, h6, rfl⟩ := h3
  have s1 : c ∈ r6 := (List.dropWhile_sublist _).subset hc
  have s2 := expectChar_subset h6 c s1
  have s3 : c ∈ (r2.dropWhile isSpaceChar).drop tok.length :=
    (List.dropWhile_sublist _).subset s2
  have s4 : c ∈ r2.dropWhile isSpaceChar := List.drop_subset _ _ s3
  have s5 : c ∈ r2 := (List.dropWhile_sublist _).subset s4
  have s6 := expectChar_subset h2 c s5
  exact (List.dropWhile_sublist _).subset s6

theorem matchParenAt_of_no_paren {tok l : List Char} (h : ∀ c ∈ l, c ≠ '(') :
    matchParenAt tok l = none := by
  simp only [matchParenAt]
  rcases hd : l.dropWhile isSpaceChar with _ | ⟨c1, r2⟩
  · rfl
  · have hc1 : c1 ∈ l := (List.dropWhile_sublist _).subset (hd ▸ List.mem_cons_self c1 r2)
    simp [expectChar, h c1 hc1]

theorem parenSubF_mem {tok : List Char} : ∀ (fuel : Nat) (l : List Char) (c : Char),
    c ∈ parenSubF tok fuel l → c = ' ' ∨ c ∈ l := by
  intro fuel
  induction fuel with
  | zero => exact fun l c hc => Or.inr hc
  | succ f ih =>
      intro l c hc
      cases l with
      | nil => simp [parenSubF] at hc
      | cons d rest =>
          simp only [parenSubF] at hc
          rcases hm : matchParenAt tok (d :: rest) with _ | r <;> rw [hm] at hc <;>
            dsimp only at hc
          · rcases List.mem_cons.mp hc with rfl | hc2
            · exact Or.inr (List.mem_cons_self _ _)
            · rcases ih rest c hc2 with h | h
              · exact Or.inl h
              · exact Or.inr (List.mem_cons_of_mem _ h)
          · rcases List.mem_cons.mp hc with rfl | hc2
            · exact Or.inl rfl
            · rcases ih r c hc2 with h | h
              · exact Or.inl h
              · exact Or.inr (matchParenAt_subset hm c h)

theorem parenSubF_id {tok : List Char} : ∀ (fuel : Nat) (l : List Char),
    (∀ c ∈ l, c ≠ '(') → parenSubF tok fuel l = l := by
  intro fuel
  induction fuel with
  | zero => exact fun l _ => rfl
  | succ f ih =>
      intro l h
      cases l with
      | nil => rfl
      | cons d rest =>
          simp only [parenSubF]
          rw [matchParenAt_of_no_paren h]
          dsimp only
          rw [ih rest fun c hc => h c (List.mem_cons_of_mem _ hc)]

theorem mem_stripSuffixStep {tok l : List Char} {c : Char}
    (h : c ∈ parenSub tok (stripTrailingTok tok l)) : c = ' ' ∨ c ∈ l := by
  rcases parenSubF_mem _ _ c h with h1 | h1
  · exact Or.inl h1
  · exact Or.inr (mem_stripTrailingTok h1)

theorem mem_foldSuffix (toks : List (List Char)) :
    ∀ (l : List Char) (c : Char),
      c ∈ toks.foldl (fun acc tok => parenSub tok (stripTrailingTok tok acc)) l →
      c = ' ' ∨ c ∈ l := by
  induction toks with
  | nil => exact fun l c hc => Or.inr hc
  | cons tok toks ih =>
      intro l c hc
      simp only [List.foldl_cons] at hc
      rcases ih _ c hc with h | h
      · exact Or.inl h
      · exact mem_stripSuffixStep h

theorem mem_stripSuffixPass {l : List Char} {c : Char} (h : c ∈ stripSuffixPass l) :
    c = ' ' ∨ c ∈ l :=
  mem_foldSuffix _ l c h

theorem wordsAux_sound : ∀ (l acc : List Char),
    (∀ c ∈ acc, isSpaceChar c = false) →
    ∀ w ∈ wordsAux l acc, w ≠ [] ∧ ∀ c ∈ w, isSpaceChar c = false ∧ (c ∈ l ∨ c ∈ acc) := by
  intro l
  induction l with
  | nil =>
      intro acc hacc w hw
      simp only [wordsAux] at hw
      split_ifs at hw with he
      · simp at hw
      · rw [List.mem_singleton] at hw
        subst hw
        refine ⟨fun hn => he ?_, fun c hc => ?_⟩
        · rw [List.isEmpty_iff]
          rwa [List.reverse_eq_nil_iff] at hn
        · rw [List.mem_reverse] at hc
          exact ⟨hacc c hc, Or.inr hc⟩
  | cons d rest ih =>
      intro acc hacc w hw
      simp only [wordsAux] at hw
      by_cases hs : isSpaceChar d
      · rw [if_pos hs] at hw
        split_ifs at hw with he
        · obtain ⟨h1, h2⟩ := ih [] (by simp) w hw
          refine ⟨h1, fun c hc => ⟨(h2 c hc).1, ?_⟩⟩
          rcases (h2 c hc).2 with hc2 | hc2
          · exact Or.inl (List.mem_cons_of_mem _ hc2)
          · simp at hc2
        · rcases List.mem_cons.mp hw with rfl | hw2
          · refine ⟨fun hn => he ?_, fun c hc => ?_⟩
            · rw [List.isEmpty_iff]
              rwa [List.reverse_eq_nil_iff] at hn
            · rw [List.mem_reverse] at hc
              exact ⟨hacc c hc, Or.inr hc⟩
          · obtain ⟨h1, h2⟩ := ih [] (by simp) w hw2
            refine ⟨h1, fun c hc => ⟨(h2 c hc).1, ?_⟩⟩
            rcases (h2 c hc).2 with hc2 | hc2
            · exact Or.inl (List.mem_cons_of_mem _ hc2)
            · simp at hc2
      · rw [if_neg hs] at hw
        have hacc2 : ∀ c ∈ d :: acc, isSpaceChar c = false := by
          intro c hc
          rcases List.mem_cons.mp hc with rfl | hc2
          · simpa using hs
          · exact hacc c hc2
        obtain ⟨h1, h2⟩ := ih (d :: acc) hacc2 w hw
        refine ⟨h1, fun c hc => ⟨(h2 c hc).1, ?_⟩⟩
        rcases (h2 c hc).2 with hc2 | hc2
        · exact Or.inl (List.mem_cons_of_mem _ hc2)
        · rcases List.mem_cons.mp hc2 with rfl | hc3
          · exact Or.inl (List.mem_cons_self _ _)
          · exact Or.inr hc3

theorem splitWs_words_ok (l : List Char) :
    ∀ w ∈ splitWs l, w ≠ [] ∧ ∀ c ∈ w, isSpaceChar c = false := by
  intro w hw
  obtain ⟨h1, h2⟩ := wordsAux_sound l [] (by simp) w hw
  exact ⟨h1, fun c hc => (h2 c hc).1⟩

theorem wordsAux_append_word : ∀ (w r acc : List Char),
    (∀ c ∈ w, isSpaceChar c = false) →
    wordsAux (w ++ r) acc = wordsAux r (w.reverse ++ acc) := by
  intro w
  induction w with
  | nil => intro r acc _; simp
  | cons d w' ih =>
      intro r acc hw
      have hd : isSpaceChar d = false := hw d (List.mem_cons_self _ _)
      simp only [List.cons_append, wordsAux, hd, Bool.false_eq_true, if_false]
      show wordsAux (w' ++ r) (d :: acc) = wordsAux r ((d :: w').reverse ++ acc)
      rw [ih r (d :: acc) fun c hc => hw c (List.mem_cons_of_mem _ hc)]
      simp

theorem splitWs_joinWords : ∀ (ws : List (List Char)),
    (∀ w ∈ ws, w ≠ [] ∧ ∀ c ∈ w, isSpaceChar c = false) →
    splitWs (joinWords ws) = ws := by
  intro ws
  induction ws with
  | nil => intro _; rfl
  | cons w ws' ih =>
      intro h
      obtain ⟨hw1, hw2⟩ := h w (List.mem_cons_self _ _)
      cases ws' with
      | nil =>
          show splitWs (joinWords [w]) = [w]
          have : joinWords [w] = w ++ [] := by simp [joinWords]
          rw [this]
          unfold splitWs
          rw [wordsAux_append_word w [] [] hw2]
          simp only [wordsAux, List.append_nil]
          rw [if_neg (by simpa [List.isEmpty_iff, List.reverse_eq_nil_iff] using hw1)]
          simp
      | cons w2 ws'' =>
          have hjw : joinWords (w :: w2 :: ws'') = w ++ ' ' :: joinWords (w2 :: ws'') := rfl
          rw [hjw]
          unfold splitWs
          rw [wordsAux_append_word w _ [] hw2]
          simp only [wordsAux, List.append_nil]
          rw [if_pos (by decide), if_neg (by simpa [List.isEmpty_iff, List.reverse_eq_nil_iff] using hw1)]
          rw [List.reverse_reverse]
          have := ih fun x hx => h x (List.mem_cons_of_mem _ hx)
          unfold splitWs at this
          rw [this]

theorem mem_joinWords : ∀ (ws : List (List Char)) (c : Char), c ∈ joinWords ws →
    c = ' ' ∨ ∃ w ∈ ws, c ∈ w := by
  intro ws
  induction ws with
  | nil => intro c hc; simp [joinWords] at hc
  | cons w ws' ih =>
      intro c hc
      cases ws' with
      | nil => exact Or.inr ⟨w, List.mem_cons_self _ _, hc⟩
      | cons w2 ws'' =>
          have hjw : joinWords (w :: w2 :: ws'') = w ++ ' ' :: joinWords (w2 :: ws'') := rfl
          rw [hjw] at hc
          rcases List.mem_append.mp hc with h1 | h1
          · exact Or.inr ⟨w, List.mem_cons_self _ _, h1⟩
          · rcases List.mem_cons.mp h1 with rfl | h2
            · exact Or.inl rfl
            · rcases ih c h2 with h3 | ⟨w3, hw3, hcw3⟩
              · exact Or.inl h3
              · exact Or.inr ⟨w3, List.mem_cons_of_mem _ hw3, hcw3⟩

theorem mem_collapseWs {l : List Char} {c : Char} (h : c ∈ collapseWs l) :
    c = ' ' ∨ (c ∈ l ∧ isSpaceChar c = false) := by
  unfold collapseWs at h
  rcases mem_joinWords _ c h with h1 | ⟨w, hw, hcw⟩
  · exact Or.inl h1
  · obtain ⟨_, h2⟩ := wordsAux_sound l [] (by simp) w hw
    rcases (h2 c hcw).2 with h3 | h3
    · exact Or.inr ⟨h3, (h2 c hcw).1⟩
    · simp at h3

theorem reverse_head_nonspace {w : List Char} (hw1 : w ≠ [])
    (hw2 : ∀ c ∈ w, isSpaceChar c = false) :
    ∃ c t, w.reverse = c :: t ∧ isSpaceChar c = false := by
  rcases hr : w.reverse with _ | ⟨c, t⟩
  · rw [List.reverse_eq_nil_iff] at hr
    exact absurd hr hw1
  · refine ⟨c, t, rfl, hw2 c ?_⟩
    rw [← List.mem_reverse, hr]
    exact List.mem_cons_self _ _

theorem joinWords_reverse_head : ∀ (ws : List (List Char)), ws ≠ [] →
    (∀ w ∈ ws, w ≠ [] ∧ ∀ c ∈ w, isSpaceChar c = false) →
    ∃ c t, (joinWords ws).reverse = c :: t ∧ isSpaceChar c = false := by
  intro ws
  induction ws with
  | nil => intro h; exact absurd rfl h
  | cons w ws' ih =>
      intro _ h
      cases ws' with
      | nil =>
          obtain ⟨hw1, hw2⟩ := h w (List.mem_cons_self _ _)
          exact reverse_head_nonspace hw1 hw2
      | cons w2 ws'' =>
          obtain ⟨c, t, hct, hc⟩ := ih (by simp) fun x hx => h x (List.mem_cons_of_mem _ hx)
          refine ⟨c, t ++ ' ' :: w.reverse, ?_, hc⟩
          have hjw : joinWords (w :: w2 :: ws'') = w ++ ' ' :: joinWords (w2 :: ws'') := rfl
          rw [hjw, List.reverse_append, List.reverse_cons, hct]
          simp

theorem trimL_joinWords (ws : List (List Char))
    (h : ∀ w ∈ ws, w ≠ [] ∧ ∀ c ∈ w, isSpaceChar c = false) :
    trimL (joinWords ws) = joinWords ws := by
  cases ws with
  | nil => rfl
  | cons w ws' =>
      obtain ⟨hw1, hw2⟩ := h w (List.mem_cons_self _ _)
      have hhead : (joinWords (w :: ws')).dropWhile isSpaceChar = joinWords (w :: ws') := by
        rcases hw : w with _ | ⟨c, w'⟩
        · exact absurd rfl (hw ▸ hw1)
        · have hc : isSpaceChar c = false := hw2 c (hw ▸ List.mem_cons_self _ _)
          cases ws' with
          | nil => simp [joinWords, List.dropWhile, hc]
          | cons w2 ws'' =>
              have : joinWords ((c :: w') :: w2 :: ws'') =
                  c :: (w' ++ ' ' :: joinWords (w2 :: ws'')) := rfl
              rw [this, List.dropWhile, hc]
      obtain ⟨c, t, hct, hc⟩ := joinWords_reverse_head (w :: ws') (by simp) h
      unfold trimL
      rw [hhead, hct, List.dropWhile, hc, ← hct, List.reverse_reverse]

theorem collapseWs_idem (l : List Char) : collapseWs (collapseWs l) = collapseWs l := by
  show joinWords (splitWs (joinWords (splitWs l))) = collapseWs l
  rw [splitWs_joinWords (splitWs l) (splitWs_words_ok l)]
  rfl

theorem trimL_collapseWs (l : List Char) : trimL (collapseWs l) = collapseWs l :=
  trimL_joinWords (splitWs l) (splitWs_words_ok l)

theorem data_mk (l : List Char) : (⟨l⟩ : String).data = l := rfl

theorem normalizeChars_chars {l : List Char} {c : Char} (h : c ∈ normalizeChars l) :
    c = ' ' ∨ (isWordChar c = true ∧
      (c = ':' || c = '-' || c = '–' || c = '—' || c = '_') = false ∧
      Char.toLower c = c ∧ isSpaceChar c = false) := by
  unfold normalizeChars at h
  rcases mem_collapseWs h with h1 | ⟨h1, hns⟩
  · exact Or.inl h1
  · rcases mem_stripSuffixPass h1 with h2 | h2
    · exact absurd (h2 ▸ hns) (by decide)
    · unfold keepWordSpace at h2
      rw [List.mem_filter] at h2
      obtain ⟨h3, h4⟩ := h2
      have hw : isWordChar c = true := by
        have h4b : isWordChar c = true ∨ isSpaceChar c = true := by simpa using h4
        rcases h4b with h5 | h5
        · exact h5
        · simp [hns] at h5
      unfold dashToSpace at h3
      rw [List.mem_map] at h3
      obtain ⟨c0, hc0, hc0eq⟩ := h3
      by_cases hdash : (c0 = ':' || c0 = '-' || c0 = '–' || c0 = '—' || c0 = '_') = true
      · rw [if_pos hdash] at hc0eq
        exact absurd (hc0eq ▸ hns) (by decide)
      · rw [if_neg hdash] at hc0eq
        subst hc0eq
        unfold stripTrademark at hc0
        rw [List.mem_filter] at hc0
        have hc1 := mem_trimL hc0.1
        unfold lowerL at hc1
        rw [List.mem_map] at hc1
        obtain ⟨c1, _, hc1eq⟩ := hc1
        refine Or.inr ⟨hw, by simpa using hdash, ?_, hns⟩
        rw [← hc1eq]
        exact toLower_toLower c1

theorem normalizeChars_idem {l : List Char}
    (h : stripSuffixPass (normalizeChars l) = normalizeChars l) :
    normalizeChars (normalizeChars l) = normalizeChars l := by
  have hchars : ∀ c ∈ normalizeChars l, c = ' ' ∨ (isWordChar c = true ∧
      (c = ':' || c = '-' || c = '–' || c = '—' || c = '_') = false ∧
      Char.toLower c = c ∧ isSpaceChar c = false) :=
    fun _ hc => normalizeChars_chars hc
  have hlow : lowerL (normalizeChars l) = normalizeChars l := by
    apply listMapSelf
    intro c hc
    rcases hchars c hc with rfl | ⟨_, _, hfix, _⟩
    · decide
    · exact hfix
  have htrim : trimL (normalizeChars l) = normalizeChars l :=
    trimL_collapseWs _
  have htm : stripTrademark (normalizeChars l) = normalizeChars l := by
    apply List.filter_eq_self.mpr
    intro c hc
    rcases hchars c hc with rfl | ⟨hw, _, _, _⟩
    · decide
    · have h1 : c ≠ '™' := fun he => by rw [he] at hw; exact absurd hw (by decide)
      have h2 : c ≠ '®' := fun he => by rw [he] at hw; exact absurd hw (by decide)
      have h3 : c ≠ '©' := fun he => by rw [he] at hw; exact absurd hw (by decide)
      simp [h1, h2, h3]
  have hdash : dashToSpace (normalizeChars l) = normalizeChars l := by
    apply listMapSelf
    intro c hc
    rcases hchars c hc with rfl | ⟨_, hd, _, _⟩
    · decide
    · rw [if_neg (by simp_all)]
  have hkeep : keepWordSpace (normalizeChars l) = normalizeChars l := by
    apply List.filter_eq_self.mpr
    intro c hc
    rcases hchars c hc with rfl | ⟨hw, _, _, _⟩
    · decide
    · rw [hw]
      simp
  show collapseWs (stripSuffixPass (keepWordSpace (dashToSpace (stripTrademark
    (trimL (lowerL (normalizeChars l))))))) = normalizeChars l
  rw [hlow, htrim, htm, hdash, hkeep, h]
  exact collapseWs_idem _

set_option maxRecDepth 8000 in
set_option maxHeartbeats 1000000 in
/-- C9 counterexample: the name normalizer strips only one trailing
occurrence of each version token per call, so it is not idempotent: the
name "game demo demo" normalizes to "game demo", which normalizes
further to "game". -/
theorem normalize_idempotent_counterexample :
    normalize_game_name (normalize_game_name "game demo demo") ≠
      normalize_game_name "game demo demo" ∧
    normalize_game_name "game demo demo" = "game demo" ∧
    normalize_game_name (normalize_game_name "game demo demo") = "game" := by
  decide

/-- C9 amended: `normalize_game_name` is idempotent exactly on the names
whose normalized form is left unchanged by a further round of
version-suffix stripping; a repeated trailing qualifier (e.g.
"game demo demo") escapes one round and is stripped by the next. -/
theorem normalize_idempotent_amended (name : String)
    (h : stripSuffixPass (normalizeChars name.data) = normalizeChars name.data) :
    normalize_game_name (normalize_game_name name) = normalize_game_name name := by
  by_cases hn : name = ""
  · subst hn; rfl
  · unfold normalize_game_name
    rw [if_neg hn]
    by_cases h2 : (⟨normalizeChars name.data⟩ : String) = ""
    · rw [if_pos h2]
      exact h2.symm
    · rw [if_neg h2]
      rw [data_mk, normalizeChars_idem h]

set_option maxRecDepth 8000 in
set_option maxHeartbeats 1000000 in
/-- Witness for C9: a single trailing qualifier is fully stripped in one
round, so normalization is idempotent on "Wicked Little Witch Demo". -/
theorem normalize_idempotent_amended_witness :
    stripSuffixPass (normalizeChars ("Wicked Little Witch Demo").data) =
      normalizeChars ("Wicked Little Witch Demo").data ∧
    normalize_game_name (normalize_game_name "Wicked Little Witch Demo") =
      normalize_game_name "Wicked Little Witch Demo" :=
  ⟨by decide, normalize_idempotent_amended "Wicked Little Witch Demo" (by decide)⟩

end SteamScraper
